import Mathlib

/-!
Shallow embedding of `src/mipro.ts` (the MIPROv2 prompt optimizer).

Modelling conventions:

* JavaScript numbers are modelled by `JNum`: an exact rational together with
  the three non-finite IEEE values `nan`, `inf` (+∞) and `ninf` (−∞).
  The claims under verification are order-theoretic (comparisons, medians,
  best-score updates, cumulative-sum selection), so exact rational
  arithmetic is the faithful abstraction; `x > y`, `x >= y`, `x <= y`
  follow the IEEE rules (every comparison involving NaN is false).
* The process-global `Math.random` replaced by `seedRandom` (Mulberry32) is
  modelled by an explicit 32-bit state threaded through the run; all the
  bit-level arithmetic of the generator is reproduced exactly
  (`Math.imul`, `>>>`, `|`, `^` on 32-bit patterns).
* The async collaborators (DataLoader, Proposer, Runner, Evaluator,
  Outputter) are deterministic by the hypotheses of the claims and are
  modelled as pure functions stored in the configuration; the data loader
  is modelled by the list it returns.  Collaborator invocations are
  recorded in an event trace so that "collaborator was invoked" is
  observable.
* The platform primitives `Math.exp`, `Math.sqrt`, `Math.pow (·, -0.2)`
  and `JSON.stringify` are not part of this repository; they are modelled
  as oracle fields of the configuration (their values never matter to any
  theorem below, only to the faithfulness of the code paths that call
  them).
-/

/-- JavaScript number values relevant to the optimizer: NaN, the two
infinities, and finite values modelled as exact rationals. -/
inductive JNum where
  | nan : JNum
  | inf : JNum
  | ninf : JNum
  | fin : ℚ → JNum
deriving DecidableEq, Repr

namespace JNum

/-- IEEE strict greater-than: any comparison with NaN is false. -/
def jGt : JNum → JNum → Bool
  | nan, _ => false
  | _, nan => false
  | inf, inf => false
  | inf, _ => true
  | ninf, _ => false
  | fin _, inf => false
  | fin _, ninf => true
  | fin a, fin b => decide (b < a)

/-- IEEE greater-or-equal: any comparison with NaN is false. -/
def jGe : JNum → JNum → Bool
  | nan, _ => false
  | _, nan => false
  | inf, _ => true
  | ninf, ninf => true
  | ninf, _ => false
  | fin _, inf => false
  | fin _, ninf => true
  | fin a, fin b => decide (b ≤ a)

/-- IEEE less-or-equal: any comparison with NaN is false. -/
def jLe (a b : JNum) : Bool := jGe b a

/-- Predicate for the NaN value (`isNaN` in JavaScript). -/
def jIsNaN : JNum → Bool
  | nan => true
  | _ => false

/-- Predicate for finite values (`Number.isFinite`). -/
def jIsFinite : JNum → Bool
  | fin _ => true
  | _ => false

/-- IEEE addition on the modelled values (finite addition is exact). -/
def jAdd : JNum → JNum → JNum
  | nan, _ => nan
  | _, nan => nan
  | inf, ninf => nan
  | ninf, inf => nan
  | inf, _ => inf
  | _, inf => inf
  | ninf, _ => ninf
  | _, ninf => ninf
  | fin a, fin b => fin (a + b)

/-- IEEE negation. -/
def jNeg : JNum → JNum
  | nan => nan
  | inf => ninf
  | ninf => inf
  | fin a => fin (-a)

/-- IEEE subtraction. -/
def jSub (a b : JNum) : JNum := jAdd a (jNeg b)

/-- IEEE multiplication (`0 * ∞ = NaN`; finite multiplication is exact). -/
def jMul : JNum → JNum → JNum
  | nan, _ => nan
  | _, nan => nan
  | inf, inf => inf
  | inf, ninf => ninf
  | ninf, inf => ninf
  | ninf, ninf => inf
  | inf, fin b => if b = 0 then nan else if 0 < b then inf else ninf
  | fin a, inf => if a = 0 then nan else if 0 < a then inf else ninf
  | ninf, fin b => if b = 0 then nan else if 0 < b then ninf else inf
  | fin a, ninf => if a = 0 then nan else if 0 < a then ninf else inf
  | fin a, fin b => fin (a * b)

/-- IEEE division (`x / 0` gives a signed infinity, `0 / 0` gives NaN;
finite division is exact). -/
def jDiv : JNum → JNum → JNum
  | nan, _ => nan
  | _, nan => nan
  | inf, inf => nan
  | inf, ninf => nan
  | ninf, inf => nan
  | ninf, ninf => nan
  | inf, fin b => if 0 ≤ b then inf else ninf
  | ninf, fin b => if 0 ≤ b then ninf else inf
  | fin _, inf => fin 0
  | fin _, ninf => fin 0
  | fin a, fin b =>
      if b = 0 then (if a = 0 then nan else if 0 < a then inf else ninf)
      else fin (a / b)

/-- Division by two, used by the even-length median. -/
def jDiv2 : JNum → JNum
  | nan => nan
  | inf => inf
  | ninf => ninf
  | fin a => fin (a / 2)

end JNum

open JNum

/-- Comparator ordering used by `arr.sort((a, b) => a - b)`: the sign of the
IEEE difference, with a NaN difference treated as "equal" (ECMAScript
`SortCompare` maps a NaN comparator result to `+0`). -/
def jCmpKey : JNum → JNum → Ordering
  | .fin a, .fin b => compare a b
  | .nan, _ => .eq
  | _, .nan => .eq
  | .inf, .inf => .eq
  | .ninf, .ninf => .eq
  | .inf, _ => .gt
  | _, .inf => .lt
  | .ninf, _ => .lt
  | _, .ninf => .gt

/-- Insert into a list sorted by `jCmpKey` (stable). -/
def insertJ (x : JNum) : List JNum → List JNum
  | [] => [x]
  | y :: ys => if jCmpKey x y = .gt then y :: insertJ x ys else x :: y :: ys

/-- Sort by the JavaScript comparator `(a, b) => a - b` (insertion sort; the
claims only depend on the sorted multiset, which any correct sort yields). -/
def sortJ : List JNum → List JNum
  | [] => []
  | x :: xs => insertJ x (sortJ xs)

/-- Embeds `Surrogate.median`: NaN on an empty array, the middle element of
the sorted array for odd length, the average of the two middle elements for
even length. -/
def medianJ (arr : List JNum) : JNum :=
  if arr = [] then .nan
  else
    let sorted := sortJ arr
    let mid := arr.length / 2
    if arr.length % 2 = 1 then sorted.getD mid .nan
    else jDiv2 (jAdd (sorted.getD (mid - 1) .nan) (sorted.getD mid .nan))

/-- Embeds the per-stage `Surrogate` state: the two append-only score lists. -/
structure Surrogate where
  good : List JNum := []
  bad : List JNum := []
deriving Repr

/-- Embeds `Surrogate.update`: compare against the running median of
`good ++ bad`; a NaN (undefined) median or `score >= median` appends to
`good`, otherwise to `bad`. -/
def Surrogate.update (s : Surrogate) (score : JNum) : Surrogate :=
  let m := medianJ (s.good ++ s.bad)
  if jIsNaN m || jGe score m then { s with good := s.good ++ [score] }
  else { s with bad := s.bad ++ [score] }

/-! ### The seeded PRNG (`seedRandom`, Mulberry32)

`seedRandom(seed)` replaces the process-global `Math.random` by a closure
over a state `t` initialised to `seed + 0x6d2b79f5`; each call first adds
`0x6d2b79f5` to `t` and then hashes it.  All bit operations act on the low
32 bits, so the state is kept modulo `2^32`. -/

/-- The Mulberry32 increment constant `0x6d2b79f5`. -/
def M32 : Nat := 0x6d2b79f5

/-- Modulus `2^32`. -/
def P32 : Nat := 4294967296

/-- First mixing step: `Math.imul(t ^ (t >>> 15), 1 | t)`. -/
def mulberryV1 (t1 : Nat) : Nat := (t1 ^^^ (t1 >>> 15)) * (1 ||| t1) % P32

/-- Second mixing step: `(v + Math.imul(v ^ (v >>> 7), 61 | v)) ^ v`. -/
def mulberryV2 (v1 : Nat) : Nat :=
  ((v1 + ((v1 ^^^ (v1 >>> 7)) * (61 ||| v1)) % P32) % P32) ^^^ v1

/-- Final tempering: `(v ^ (v >>> 14)) >>> 0`. -/
def mulberryOut (v2 : Nat) : Nat := v2 ^^^ (v2 >>> 14)

/-- The 32-bit value produced by one `Math.random()` call from state `t`
(the state is first advanced by the constant, as in the closure). -/
def mulberryNat (t : Nat) : Nat :=
  mulberryOut (mulberryV2 (mulberryV1 ((t + M32) % P32)))

/-- One call of the Mulberry32 `Math.random` replacement: returns the drawn
value (an exact dyadic rational in `[0, 1)`, from `v / 4294967296`) and the
new closure state. -/
def randQ (t : Nat) : ℚ × Nat :=
  ((mulberryNat t : ℚ) / (P32 : ℚ), (t + M32) % P32)

/-- The closure state installed by `seedRandom(seed)`: the code initialises
`t = seed + 0x6d2b79f5` at seeding time (each later call adds the constant
again before hashing, which `randQ` reproduces). -/
def seedRandomState (seed : Nat) : Nat := (seed + M32) % P32

/-- Embeds the constructor's `seedRandom(this.opts.randomSeed)` call as its
effect on the process-global `Math.random` slot (`none` = the platform
default generator, `some t` = the Mulberry32 closure with state `t`). -/
def constructRandom (seed : Nat) (_g : Option Nat) : Option Nat :=
  some (seedRandomState seed)

/-- Embeds `Math.floor(r * n)` for a drawn value `r` and a length `n`. -/
def floorIdx (r : ℚ) (n : Nat) : Nat := (⌊r * (n : ℚ)⌋).toNat

/-! ### The batch sampler (`sampleArray`) -/

/-- Embeds the `while (out.length < n && copy.length)` loop of
`sampleArray`: each round draws one random index into the remaining copy,
removes that element and appends it to the output. -/
def sampleGo {α : Type} [Inhabited α] : Nat → List α → Nat → List α × Nat
  | 0, _, t => ([], t)
  | _ + 1, [], t => ([], t)
  | k + 1, x :: xs, t =>
      let rt := randQ t
      let idx := floorIdx rt.1 (x :: xs).length
      let picked := (x :: xs).getD idx default
      let rest := sampleGo k ((x :: xs).eraseIdx idx) rt.2
      (picked :: rest.1, rest.2)

/-- Embeds `sampleArray(arr, n)` threading the global PRNG state; `n` is the
requested batch size (a JavaScript number, possibly non-positive). -/
def sampleArr {α : Type} [Inhabited α] (arr : List α) (n : Int) (t : Nat) :
    List α × Nat :=
  sampleGo n.toNat arr t

/-! ### Data model -/

/-- Embeds `Item` from `types.ts`. -/
structure Item where
  text : String
  target : String
deriving DecidableEq, Repr, Inhabited

/-- Embeds `Prompt`: an instruction plus input/output demonstrations. -/
structure Prompt where
  instruction : String
  examples : List (String × String) := []
deriving DecidableEq, Repr

/-- A prompt set (`Record<TStages, Prompt>`): stages absent from the record
read as `none` (JavaScript `undefined`). -/
def PromptSet : Type := String → Option Prompt

/-- Embeds `Trial` from the history ledger.  The iteration is an integer
because the sentinel best uses `-1`. -/
structure Trial where
  iteration : Int
  prompts : PromptSet
  score : JNum

/-- Embeds `ProposerContext` from `types.ts`. -/
structure ProposerContext where
  stageName : String
  dataSummary : String
  programSummary : String
  pastAttempts : List (Option Prompt × JNum)
  initialPrompts : PromptSet

/-- One entry of the `initialPrompts` constructor argument
(`Record<string, string> | Record<TStages, Prompt>`). -/
inductive InitPrompt where
  | str : String → InitPrompt
  | obj : Prompt → InitPrompt
deriving DecidableEq, Repr

/-- Normalisation performed at the top of `optimize`: a bare string is
wrapped as `{instruction, examples: []}`.  (The code's `prompt &&` guard
leaves an empty bare string unwrapped, an untyped-value corner that a typed
model cannot distinguish; no claim depends on it.) -/
def normalizeInitial : InitPrompt → Prompt
  | .str s => { instruction := s, examples := [] }
  | .obj p => p

/-- Builds `startingPrompts` from the `Object.entries` of `initialPrompts`. -/
def buildStarting (entries : List (String × InitPrompt)) : PromptSet :=
  entries.foldl
    (fun f e => Function.update f e.1 (some (normalizeInitial e.2)))
    (fun _ => none)

/-- Observable collaborator invocations, in program order. -/
inductive Event where
  | load : Event
  | propose : ProposerContext → Event
  | runItem : Item → Event
  | evalBatch : Nat → Event
  | output : PromptSet → Event

/-- The optimizer configuration: constructor arguments, options, and the
deterministic collaborators (pure functions, per the claims' hypotheses).
`stringify`, `mathExp`, `mathSqrt` and `mathPowNeg` are oracles for the
platform primitives `JSON.stringify`, `Math.exp`, `Math.sqrt` and
`Math.pow(·, -0.2)`, which are not part of this repository. -/
structure Config (T : Type) where
  stages : List String
  runner : Item → PromptSet → T
  data : List Item
  proposer : ProposerContext → Prompt
  evaluator : List T → JNum
  initialPrompts : List (String × InitPrompt)
  maxIterations : Int := 100
  batchSize : Int := 8
  seed : Nat
  earlyStopThreshold : JNum := .fin (19 / 20)
  stringify : List Item → String
  mathExp : JNum → JNum
  mathSqrt : JNum → JNum
  mathPowNeg : Nat → JNum

/-! ### Surrogate utility (`utility`, `parzen`, `gaussian`, `std`)

These reproduce the code structure; the transcendental platform calls go
through the configuration's oracles. -/

/-- The double closest to `Math.PI`, as an exact rational. -/
def jsPI : ℚ := 884279719003555 / 281474976710656

/-- Embeds `Surrogate.gaussian(x, mu, sigma)`. -/
def gaussianJ (mathExp mathSqrt : JNum → JNum) (x mu sigma : JNum) : JNum :=
  let coeff := jDiv (.fin 1) (jMul (mathSqrt (jMul (.fin 2) (.fin jsPI))) sigma)
  let expo := jDiv (jNeg (jMul (jSub x mu) (jSub x mu)))
    (jMul (.fin 2) (jMul sigma sigma))
  jMul coeff (mathExp expo)

/-- Embeds `Surrogate.std(arr)` (centred on the median, as in the source). -/
def stdJ (mathSqrt : JNum → JNum) (arr : List JNum) : JNum :=
  let m := medianJ arr
  let variance := jDiv
    (arr.foldl (fun s v => jAdd s (jMul (jSub v m) (jSub v m))) (.fin 0))
    (.fin (arr.length : ℚ))
  mathSqrt variance

/-- Embeds `Surrogate.parzen(x, arr)`. -/
def parzenJ (mathExp mathSqrt : JNum → JNum) (mathPowNeg : Nat → JNum)
    (x : JNum) (arr : List JNum) : JNum :=
  if arr = [] then .fin 0
  else
    let bandwidth := jAdd (.fin (1 / 1000))
      (jMul (jMul (.fin (106 / 100)) (stdJ mathSqrt arr)) (mathPowNeg arr.length))
    jDiv (arr.foldl (fun s v => jAdd s (gaussianJ mathExp mathSqrt x v bandwidth)) (.fin 0))
      (.fin (arr.length : ℚ))

/-- Embeds `Surrogate.utility(score)`: a fresh `Math.random()` draw while
either class is empty, otherwise the Parzen density ratio with the `1e-6`
guard.  Threads the global PRNG state. -/
def Surrogate.utility (mathExp mathSqrt : JNum → JNum) (mathPowNeg : Nat → JNum)
    (s : Surrogate) (score : JNum) (t : Nat) : JNum × Nat :=
  if s.good = [] ∨ s.bad = [] then
    let rt := randQ t
    (.fin rt.1, rt.2)
  else
    (jDiv (parzenJ mathExp mathSqrt mathPowNeg score s.good)
      (jAdd (parzenJ mathExp mathSqrt mathPowNeg score s.bad) (.fin (1 / 1000000))), t)

/-! ### Stage selection -/

/-- Embeds the cumulative-weight scan of `selectStage`
(`for i ...: acc += utils[i]; if (r <= acc) return stages[i]`). -/
def pickByWeight : List String → List JNum → JNum → JNum → Option String
  | s :: ss, u :: us, acc, r =>
      let acc1 := jAdd acc u
      if jLe r acc1 then some s else pickByWeight ss us acc1 r
  | _, _, _, _ => none

/-- Embeds lines 199–207 of `selectStage`: total the utilities, draw
`r = Math.random() * total`, scan cumulatively, and only if no stage was
returned fall through to the uniform random pick. -/
def weightedSelect (stages : List String) (utils : List JNum) (t : Nat) :
    String × Nat :=
  let total := utils.foldl jAdd (.fin 0)
  let rt := randQ t
  let r := jMul (.fin rt.1) total
  match pickByWeight stages utils (.fin 0) r with
  | some s => (s, rt.2)
  | none =>
      let rt2 := randQ rt.2
      (stages.getD (floorIdx rt2.1 stages.length) "", rt2.2)

/-- Mutable optimizer state during `optimize`. -/
structure OptState where
  rng : Nat
  history : List Trial
  surrogates : String → Surrogate
  executed : List String
  best : Trial
  events : List Event

/-- Embeds the `utils` computation of `selectStage`: one `utility` call per
declared stage at the last trial's score (0 when the history is empty),
threading the PRNG state. -/
def stageUtils {T : Type} (cfg : Config T) (st : OptState) : List JNum × Nat :=
  let lastScore := match st.history.getLast? with
    | some tr => tr.score
    | none => JNum.fin 0
  cfg.stages.foldl
    (fun p s =>
      let ut := Surrogate.utility cfg.mathExp cfg.mathSqrt cfg.mathPowNeg
        (st.surrogates s) lastScore p.2
      (p.1 ++ [ut.1], ut.2))
    (([] : List JNum), st.rng)

/-- Embeds `selectStage`: a uniform pick among never-executed stages when any
exist, otherwise the surrogate-weighted selection. -/
def selectStage {T : Type} (cfg : Config T) (st : OptState) : String × Nat :=
  let unexec := cfg.stages.filter (fun s => !st.executed.contains s)
  if unexec.isEmpty then
    let ut := stageUtils cfg st
    weightedSelect cfg.stages ut.1 ut.2
  else
    let rt := randQ st.rng
    (unexec.getD (floorIdx rt.1 unexec.length) "", rt.2)

/-! ### One iteration of the optimizer loop -/

/-- The stage chosen by the current iteration. -/
def stepStage {T : Type} (cfg : Config T) (st : OptState) : String :=
  (selectStage cfg st).1

/-- The PRNG state after stage selection. -/
def stepRng1 {T : Type} (cfg : Config T) (st : OptState) : Nat :=
  (selectStage cfg st).2

/-- Embeds the `ProposerContext` built by `proposePrompt`: note that
`pastAttempts` maps over the whole history (every prior trial), pairing each
trial's prompt at the selected stage with that trial's score. -/
def stepCtx {T : Type} (cfg : Config T) (starting : PromptSet) (st : OptState) :
    ProposerContext where
  stageName := stepStage cfg st
  dataSummary := "Sample data preview: " ++ cfg.stringify (cfg.data.take 3)
  programSummary := "Program stages: " ++ String.intercalate ", " cfg.stages
  pastAttempts := st.history.map (fun h => (h.prompts (stepStage cfg st), h.score))
  initialPrompts := starting

/-- The candidate prompt set: the best-so-far prompts with the selected
stage's entry replaced by the proposer's new prompt. -/
def stepCand {T : Type} (cfg : Config T) (starting : PromptSet) (st : OptState) :
    PromptSet :=
  Function.update st.best.prompts (stepStage cfg st)
    (some (cfg.proposer (stepCtx cfg starting st)))

/-- The batch drawn for the current iteration (with the PRNG state after). -/
def stepBatch {T : Type} (cfg : Config T) (st : OptState) : List Item × Nat :=
  sampleArr cfg.data cfg.batchSize (stepRng1 cfg st)

/-- The evaluator's score for the current iteration: the batch items are run
sequentially through the runner and the outputs scored as one batch. -/
def stepScore {T : Type} (cfg : Config T) (starting : PromptSet) (st : OptState) :
    JNum :=
  cfg.evaluator ((stepBatch cfg st).1.map
    (fun it => cfg.runner it (stepCand cfg starting st)))

/-- One iteration of the `for` loop in `optimize` (lines 158–179): select a
stage, mark it executed, propose, assemble, evaluate, append to history,
update the surrogate, and update the best on strict improvement.  Returns
the new state and whether the early-stop `break` fires. -/
def optStep {T : Type} (cfg : Config T) (starting : PromptSet) (iter : Nat)
    (st : OptState) : OptState × Bool :=
  let stage := stepStage cfg st
  let trial : Trial :=
    { iteration := (iter : Int)
      prompts := stepCand cfg starting st
      score := stepScore cfg starting st }
  let improved := jGt trial.score st.best.score
  let st' : OptState :=
    { rng := (stepBatch cfg st).2
      history := st.history ++ [trial]
      surrogates := Function.update st.surrogates stage
        ((st.surrogates stage).update trial.score)
      executed := if st.executed.contains stage then st.executed
        else st.executed ++ [stage]
      best := if improved then trial else st.best
      events := st.events ++ [Event.propose (stepCtx cfg starting st)]
        ++ ((stepBatch cfg st).1.map Event.runItem)
        ++ [Event.evalBatch (stepBatch cfg st).1.length] }
  (st', improved && jGe trial.score cfg.earlyStopThreshold)

/-- The optimizer loop: run up to `fuel` iterations starting at index
`iter`, stopping early when an iteration breaks. -/
def optRun {T : Type} (cfg : Config T) (starting : PromptSet) :
    Nat → Nat → OptState → OptState
  | _, 0, st => st
  | iter, fuel + 1, st =>
      let sb := optStep cfg starting iter st
      if sb.2 then sb.1 else optRun cfg starting (iter + 1) fuel sb.1

/-- The observable outcome of a run: the final state, the prompt set passed
to the Outputter, and the full collaborator-event trace. -/
structure RunResult where
  final : OptState
  outputted : PromptSet
  events : List Event

/-- The normalized initial prompt set of a configuration. -/
def startingOf {T : Type} (cfg : Config T) : PromptSet :=
  buildStarting cfg.initialPrompts

/-- The state at entry to the loop: PRNG seeded by the constructor, empty
history, fresh surrogates, no executed stages, and the sentinel best
`{iteration: -1, prompts: startingPrompts, score: -∞}`.  The leading `load`
event records the `await this.loader()` call. -/
def initState {T : Type} (cfg : Config T) : OptState where
  rng := seedRandomState cfg.seed
  history := []
  surrogates := fun _ => {}
  executed := []
  best := { iteration := -1, prompts := startingOf cfg, score := .ninf }
  events := [Event.load]

/-- Embeds `optimize`: load data, normalize the initial prompts, run the
loop, and pass the best prompts to the Outputter.  The JavaScript method is
declared `Promise<void>`, so the run's only outputs are its effects: the
trace and the Outputter argument. -/
def optimize {T : Type} (cfg : Config T) : RunResult :=
  let final := optRun cfg (startingOf cfg) 0 cfg.maxIterations.toNat (initState cfg)
  { final := final
    outputted := final.best.prompts
    events := final.events ++ [Event.output final.best.prompts] }

/-- The sequence of contexts handed to the Proposer during a run. -/
def proposedCtxs (r : RunResult) : List ProposerContext :=
  r.events.filterMap (fun e => match e with
    | Event.propose c => some c
    | _ => none)



/-- Specification-side scan over rational weights with accumulator `a`: the
index of the first position `i` whose cumulative weight `a + u_0 + ... + u_i`
reaches the draw `r` — the rational shadow of `pickByWeight`. -/
def pickIdxQ : List ℚ → ℚ → ℚ → Option Nat
  | [], _, _ => none
  | u :: us, a, r =>
      if r ≤ a + u then some 0 else (pickIdxQ us (a + u) r).map (· + 1)

/-! ### Concrete configurations used by witnesses and counterexamples -/

/-- The best-dominates-history invariant, threaded through the run. -/
def BestInv (st : OptState) : Prop :=
  (∀ tr ∈ st.history, jGe st.best.score tr.score = true)
  ∧ jIsNaN st.best.score = false

/-- The best is a recorded trial or still the initial sentinel. -/
def BestOrigin (b0 : Trial) (st : OptState) : Prop :=
  st.best ∈ st.history ∨ st.best = b0

/-- A one-stage configuration whose Evaluator always returns `+Infinity`. -/
def cfgInfEval : Config Unit where
  stages := ["g"]
  runner := fun _ _ => ()
  data := [{ text := "x", target := "y" }]
  proposer := fun _ => { instruction := "new" }
  evaluator := fun _ => .inf
  initialPrompts := [("g", .str "init")]
  maxIterations := 1
  batchSize := 1
  seed := 3
  stringify := fun _ => ""
  mathExp := fun _ => .fin 0
  mathSqrt := fun _ => .fin 0
  mathPowNeg := fun _ => .fin 1

/-- A one-stage configuration whose Evaluator always returns `NaN`. -/
def cfgNanEval : Config Unit where
  stages := ["g"]
  runner := fun _ _ => ()
  data := [{ text := "x", target := "y" }]
  proposer := fun _ => { instruction := "new" }
  evaluator := fun _ => .nan
  initialPrompts := [("g", .str "init")]
  maxIterations := 1
  batchSize := 1
  seed := 3
  stringify := fun _ => ""
  mathExp := fun _ => .fin 0
  mathSqrt := fun _ => .fin 0
  mathPowNeg := fun _ => .fin 1

/-- A configuration with `batchSize = 0` (violating `batch_size >= 1`). -/
def cfgBadBatch : Config Unit where
  stages := ["g"]
  runner := fun _ _ => ()
  data := [{ text := "x", target := "y" }]
  proposer := fun ctx => { instruction := ctx.stageName }
  evaluator := fun _ => .fin 0
  initialPrompts := [("g", .str "init")]
  maxIterations := 1
  batchSize := 0
  seed := 7
  stringify := fun _ => ""
  mathExp := fun _ => .fin 0
  mathSqrt := fun _ => .fin 0
  mathPowNeg := fun _ => .fin 1

/-- A two-stage deterministic configuration with seed 42. -/
def cfgTwoStage : Config Unit where
  stages := ["a", "b"]
  runner := fun _ _ => ()
  data := [{ text := "x", target := "y" }]
  proposer := fun ctx => { instruction := "p-" ++ ctx.stageName }
  evaluator := fun _ => .fin (1 / 2)
  initialPrompts := [("a", .str "ia"), ("b", .str "ib")]
  maxIterations := 2
  batchSize := 1
  seed := 42
  stringify := fun _ => ""
  mathExp := fun _ => .fin 0
  mathSqrt := fun _ => .fin 0
  mathPowNeg := fun _ => .fin 1

/-- A one-stage configuration whose Evaluator always returns `1`. -/
def cfgOneEval : Config Unit where
  stages := ["g"]
  runner := fun _ _ => ()
  data := [{ text := "x", target := "y" }]
  proposer := fun _ => { instruction := "new" }
  evaluator := fun _ => .fin 1
  initialPrompts := [("g", .str "init")]
  maxIterations := 1
  batchSize := 1
  seed := 5
  stringify := fun _ => ""
  mathExp := fun _ => .fin 0
  mathSqrt := fun _ => .fin 0
  mathPowNeg := fun _ => .fin 1

/-- A state whose best score already equals `cfgOneEval`'s constant score. -/
def stOneBest : OptState :=
  { initState cfgOneEval with
      best := { iteration := -1, prompts := startingOf cfgOneEval, score := .fin 1 } }
/-- A state of `cfgOneEval` in which every declared stage has executed. -/
def stAllExec : OptState :=
  { initState cfgOneEval with executed := ["g"] }


/-! ### Order lemmas for the IEEE comparisons -/

theorem jGt_irrefl (a : JNum) : jGt a a = false := by
  cases a <;> simp [jGt]

theorem jGt_nan_right (a : JNum) : jGt a .nan = false := by
  cases a <;> simp [jGt]

theorem jGt_nan_left (a : JNum) : jGt .nan a = false := by
  cases a <;> simp [jGt]

theorem jGt_ninf_left (a : JNum) : jGt .ninf a = false := by
  cases a <;> simp [jGt]

theorem jGe_nan_left (a : JNum) : jGe .nan a = false := by
  cases a <;> simp [jGe]

theorem jGe_nan_right (a : JNum) : jGe a .nan = false := by
  cases a <;> simp [jGe]

theorem jGe_of_jGt {a b : JNum} (h : jGt a b = true) : jGe a b = true := by
  cases a <;> cases b <;> simp_all [jGt, jGe]
  exact le_of_lt h

theorem not_nan_of_jGt_left {a b : JNum} (h : jGt a b = true) :
    jIsNaN a = false := by
  cases a <;> cases b <;> simp_all [jGt, jIsNaN]

theorem jGe_refl_of_not_nan {a : JNum} (h : jIsNaN a = false) :
    jGe a a = true := by
  cases a <;> simp_all [jGe, jIsNaN]

theorem jGe_trans {a b c : JNum} (h1 : jGe a b = true) (h2 : jGe b c = true) :
    jGe a c = true := by
  cases a <;> cases b <;> cases c <;> simp_all [jGe] <;> linarith

theorem jGe_of_jGt_of_jGe {a b c : JNum} (h1 : jGt a b = true)
    (h2 : jGe b c = true) : jGe a c = true :=
  jGe_trans (jGe_of_jGt h1) h2

theorem jGe_of_not_jGt {a b : JNum} (ha : jIsNaN a = false)
    (hb : jIsNaN b = false) (h : jGt a b = false) : jGe b a = true := by
  cases a <;> cases b <;> simp_all [jGt, jGe, jIsNaN] <;> linarith

/-! ### Range of the PRNG output -/

theorem P32_pos : 0 < P32 := by norm_num [P32]

theorem xor_lt_P32 {x y : Nat} (hx : x < P32) (hy : y < P32) :
    x ^^^ y < P32 := by
  have h32 : P32 = 2 ^ 32 := by norm_num [P32]
  rw [h32] at hx hy ⊢
  exact Nat.bitwise_lt_two_pow hx hy

theorem mulberryNat_lt (t : Nat) : mulberryNat t < P32 := by
  have hmod : ∀ a : Nat, a % P32 < P32 := fun a => Nat.mod_lt _ P32_pos
  have hv1 : mulberryV1 ((t + M32) % P32) < P32 := hmod _
  have hv2 : mulberryV2 (mulberryV1 ((t + M32) % P32)) < P32 :=
    xor_lt_P32 (hmod _) hv1
  have hsh : mulberryV2 (mulberryV1 ((t + M32) % P32)) >>> 14 ≤
      mulberryV2 (mulberryV1 ((t + M32) % P32)) := by
    rw [Nat.shiftRight_eq_div_pow]
    exact Nat.div_le_self _ _
  exact xor_lt_P32 hv2 (lt_of_le_of_lt hsh hv2)

theorem randQ_nonneg (t : Nat) : 0 ≤ (randQ t).1 := by
  have h : (0 : ℚ) ≤ (P32 : ℚ) := by norm_num [P32]
  exact div_nonneg (by positivity) h

theorem randQ_lt_one (t : Nat) : (randQ t).1 < 1 := by
  show ((mulberryNat t : ℚ) / (P32 : ℚ)) < 1
  rw [div_lt_one (by norm_num [P32])]
  exact_mod_cast mulberryNat_lt t

theorem floorIdx_lt {r : ℚ} {n : Nat} (h0 : 0 ≤ r) (h1 : r < 1) (hn : 0 < n) :
    floorIdx r n < n := by
  unfold floorIdx
  have hnq : (0 : ℚ) < (n : ℚ) := by exact_mod_cast hn
  have hmul : r * (n : ℚ) < (n : ℚ) := by nlinarith
  have hfl : ⌊r * (n : ℚ)⌋ < (n : Int) := by
    rw [Int.floor_lt]
    exact_mod_cast hmul
  omega

/-! ### Sorting and median lemmas -/

theorem insertJ_perm (x : JNum) (l : List JNum) : List.Perm (insertJ x l) (x :: l) := by
  induction l with
  | nil => exact List.Perm.refl _
  | cons y ys ih =>
      unfold insertJ
      by_cases h : jCmpKey x y = .gt
      · simp only [h, if_pos]
        exact (ih.cons y).trans (List.Perm.swap x y ys)
      · simp only [h, if_neg, ite_false]
        exact List.Perm.refl _

theorem sortJ_perm (l : List JNum) : List.Perm (sortJ l) l := by
  induction l with
  | nil => exact List.Perm.refl _
  | cons x xs ih => exact (insertJ_perm x (sortJ xs)).trans (ih.cons x)

theorem sortJ_length (l : List JNum) : (sortJ l).length = l.length :=
  (sortJ_perm l).length_eq

theorem mem_of_mem_sortJ {x : JNum} {l : List JNum} (h : x ∈ sortJ l) :
    x ∈ l := (sortJ_perm l).mem_iff.1 h

theorem jIsFinite_iff {x : JNum} : jIsFinite x = true ↔ ∃ q, x = JNum.fin q := by
  cases x <;> simp [jIsFinite]

theorem medianJ_finite {arr : List JNum} (hfin : ∀ x ∈ arr, jIsFinite x = true)
    (hne : arr ≠ []) : jIsFinite (medianJ arr) = true := by
  have hlen : 0 < arr.length := List.length_pos.2 hne
  have hmid : arr.length / 2 < (sortJ arr).length := by
    rw [sortJ_length]
    exact Nat.div_lt_self hlen (by norm_num)
  have hmid1 : arr.length / 2 - 1 < (sortJ arr).length := by omega
  have hget : ∀ i (h : i < (sortJ arr).length),
      jIsFinite ((sortJ arr).getD i .nan) = true := by
    intro i h
    rw [List.getD_eq_getElem?_getD, List.getElem?_eq_getElem h]
    exact hfin _ (mem_of_mem_sortJ ((sortJ arr).getElem_mem h))
  unfold medianJ
  rw [if_neg hne]
  by_cases hpar : arr.length % 2 = 1
  · simp only [hpar, if_pos]
    exact hget _ hmid
  · simp only [hpar, if_neg, ite_false]
    obtain ⟨q1, hq1⟩ := jIsFinite_iff.1 (hget _ hmid1)
    obtain ⟨q2, hq2⟩ := jIsFinite_iff.1 (hget _ hmid)
    rw [hq1, hq2]
    simp [jAdd, jDiv2, jIsFinite]

theorem medianJ_nan_iff {arr : List JNum} (hfin : ∀ x ∈ arr, jIsFinite x = true) :
    jIsNaN (medianJ arr) = true ↔ arr = [] := by
  constructor
  · intro h
    by_contra hne
    have := medianJ_finite hfin hne
    cases hm : medianJ arr <;> simp_all [jIsNaN, jIsFinite]
  · intro h
    subst h
    rfl

/-! ### Sampler lemmas -/

theorem getD_cons_eraseIdx_perm {α : Type} [Inhabited α] :
    ∀ (l : List α) (i : Nat), i < l.length →
      List.Perm (l.getD i default :: l.eraseIdx i) l := by
  intro l
  induction l with
  | nil => intro i h; simp at h
  | cons x xs ih =>
      intro i h
      cases i with
      | zero => simp
      | succ j =>
          have hj : j < xs.length := by simpa using h
          have := ih j hj
          simpa using (List.Perm.swap x (xs.getD j default) (xs.eraseIdx j)).trans (this.cons x)

theorem sampleGo_length {α : Type} [Inhabited α] :
    ∀ (k : Nat) (l : List α) (t : Nat),
      (sampleGo k l t).1.length = min k l.length := by
  intro k
  induction k with
  | zero => intro l t; simp [sampleGo]
  | succ k ih =>
      intro l t
      cases l with
      | nil => simp [sampleGo]
      | cons x xs =>
          have hlen : 0 < (x :: xs).length := by simp
          have hidx : floorIdx (randQ t).1 (x :: xs).length < (x :: xs).length :=
            floorIdx_lt (randQ_nonneg t) (randQ_lt_one t) hlen
          have herase : ((x :: xs).eraseIdx (floorIdx (randQ t).1 (x :: xs).length)).length
              = (x :: xs).length - 1 := List.length_eraseIdx_of_lt hidx
          simp only [sampleGo]
          rw [List.length_cons, ih, herase]
          simp only [List.length_cons] at hidx ⊢
          omega

theorem sampleGo_subperm {α : Type} [Inhabited α] :
    ∀ (k : Nat) (l : List α) (t : Nat),
      List.Subperm (sampleGo k l t).1 l := by
  intro k
  induction k with
  | zero => intro l t; simp [sampleGo, List.nil_subperm]
  | succ k ih =>
      intro l t
      cases l with
      | nil => simp [sampleGo, List.nil_subperm]
      | cons x xs =>
          have hlen : 0 < (x :: xs).length := by simp
          have hidx : floorIdx (randQ t).1 (x :: xs).length < (x :: xs).length :=
            floorIdx_lt (randQ_nonneg t) (randQ_lt_one t) hlen
          have hperm := getD_cons_eraseIdx_perm (x :: xs)
            (floorIdx (randQ t).1 (x :: xs).length) hidx
          have hrest := ih ((x :: xs).eraseIdx (floorIdx (randQ t).1 (x :: xs).length)) (randQ t).2
          simp only [sampleGo]
          exact List.Subperm.trans ((List.subperm_cons _).2 hrest) hperm.subperm

theorem jIsNaN_eq_false_of_finite {x : JNum} (h : jIsFinite x = true) :
    jIsNaN x = false := by
  cases x <;> simp_all [jIsFinite, jIsNaN]

/-- Claim C6: for every `Surrogate.update(score)` call on a surrogate whose
stored scores are finite, the score is appended to `good` exactly when the
union `good ++ bad` is empty (median undefined) or `score >= median`, and
appended to `bad` otherwise; both lists only ever grow by that one
appended element, so no element is ever removed. -/
theorem claim_C6_surrogate_median_split (s : Surrogate) (score : JNum)
    (hfin : ∀ x ∈ s.good ++ s.bad, jIsFinite x = true) :
    (Surrogate.update s score).good =
      (if s.good ++ s.bad = [] ∨ jGe score (medianJ (s.good ++ s.bad)) = true
        then s.good ++ [score] else s.good)
    ∧ (Surrogate.update s score).bad =
      (if s.good ++ s.bad = [] ∨ jGe score (medianJ (s.good ++ s.bad)) = true
        then s.bad else s.bad ++ [score]) := by
  have hcond : ((jIsNaN (medianJ (s.good ++ s.bad))
        || jGe score (medianJ (s.good ++ s.bad))) = true)
      ↔ (s.good ++ s.bad = [] ∨ jGe score (medianJ (s.good ++ s.bad)) = true) := by
    rw [Bool.or_eq_true, medianJ_nan_iff hfin]
  by_cases h : (jIsNaN (medianJ (s.good ++ s.bad))
      || jGe score (medianJ (s.good ++ s.bad))) = true
  · constructor
    · simp only [Surrogate.update, h, if_true]
      rw [if_pos (hcond.1 h)]
    · simp only [Surrogate.update, h, if_true]
      rw [if_pos (hcond.1 h)]
  · have h2 : ¬ (s.good ++ s.bad = [] ∨
        jGe score (medianJ (s.good ++ s.bad)) = true) := fun hc => h (hcond.2 hc)
    have hb : (jIsNaN (medianJ (s.good ++ s.bad))
        || jGe score (medianJ (s.good ++ s.bad))) = false := by
      rw [Bool.eq_false_iff]
      exact h
    constructor
    · simp only [Surrogate.update, hb, Bool.false_eq_true, if_false]
      rw [if_neg h2]
    · simp only [Surrogate.update, hb, Bool.false_eq_true, if_false]
      rw [if_neg h2]

/-- Witness for C6 at a concrete surrogate (`good = [1]`, `bad = [0]`,
median `1/2`) and score `5`. -/
theorem claim_C6_witness :
    (Surrogate.update ⟨[.fin 1], [.fin 0]⟩ (.fin 5)).good =
      (if [JNum.fin 1] ++ [JNum.fin 0] = [] ∨
          jGe (.fin 5) (medianJ ([JNum.fin 1] ++ [JNum.fin 0])) = true
        then [JNum.fin 1] ++ [JNum.fin 5] else [JNum.fin 1])
    ∧ (Surrogate.update ⟨[.fin 1], [.fin 0]⟩ (.fin 5)).bad =
      (if [JNum.fin 1] ++ [JNum.fin 0] = [] ∨
          jGe (.fin 5) (medianJ ([JNum.fin 1] ++ [JNum.fin 0])) = true
        then [JNum.fin 0] else [JNum.fin 0] ++ [JNum.fin 5]) :=
  claim_C6_surrogate_median_split ⟨[.fin 1], [.fin 0]⟩ (.fin 5) (by decide)

/-- Claim C8: every batch (both `sampleArray` in general and the batch drawn
by an iteration) holds exactly `min(batch_size, |dataset|)` items and is a
sub-permutation of the dataset — drawn without replacement, no dataset
position used twice; `batch_size > |dataset|` therefore behaves exactly as
`batch_size = |dataset|`.  The dataset list itself is a value the sampler
only copies from, so it is unchanged by sampling. -/
theorem claim_C8_batch_sampling {T : Type} (cfg : Config T) (st : OptState)
    (arr : List Item) (n : Int) (t : Nat) :
    (sampleArr arr n t).1.length = min n.toNat arr.length
    ∧ List.Subperm (sampleArr arr n t).1 arr
    ∧ (stepBatch cfg st).1.length = min cfg.batchSize.toNat cfg.data.length
    ∧ List.Subperm (stepBatch cfg st).1 cfg.data :=
  ⟨sampleGo_length _ arr t, sampleGo_subperm _ arr t,
    sampleGo_length _ cfg.data _, sampleGo_subperm _ cfg.data _⟩

/-! ### Run-level invariant lemmas -/

theorem optStep_best_eq {T : Type} (cfg : Config T) (starting : PromptSet)
    (iter : Nat) (st : OptState) :
    (optStep cfg starting iter st).1.best =
      (if jGt (stepScore cfg starting st) st.best.score = true
        then ({ iteration := (iter : Int), prompts := stepCand cfg starting st,
                score := stepScore cfg starting st } : Trial)
        else st.best) := by
  simp only [optStep]

theorem optStep_history_eq {T : Type} (cfg : Config T) (starting : PromptSet)
    (iter : Nat) (st : OptState) :
    (optStep cfg starting iter st).1.history =
      st.history ++ [({ iteration := (iter : Int),
                        prompts := stepCand cfg starting st,
                        score := stepScore cfg starting st } : Trial)] := by
  simp only [optStep]

theorem optStep_best_mono {T : Type} (cfg : Config T) (starting : PromptSet)
    (iter : Nat) (st : OptState) (h : jIsNaN st.best.score = false) :
    jGe (optStep cfg starting iter st).1.best.score st.best.score = true
    ∧ jIsNaN (optStep cfg starting iter st).1.best.score = false := by
  rw [optStep_best_eq]
  by_cases hgt : jGt (stepScore cfg starting st) st.best.score = true
  · rw [if_pos hgt]
    exact ⟨jGe_of_jGt hgt, not_nan_of_jGt_left hgt⟩
  · rw [if_neg hgt]
    exact ⟨jGe_refl_of_not_nan h, h⟩

theorem optRun_best_mono {T : Type} (cfg : Config T) (starting : PromptSet) :
    ∀ (fuel iter : Nat) (st : OptState), jIsNaN st.best.score = false →
      jGe (optRun cfg starting iter fuel st).best.score st.best.score = true
      ∧ jIsNaN (optRun cfg starting iter fuel st).best.score = false := by
  intro fuel
  induction fuel with
  | zero =>
      intro iter st h
      exact ⟨jGe_refl_of_not_nan h, h⟩
  | succ fuel ih =>
      intro iter st h
      have hstep := optStep_best_mono cfg starting iter st h
      simp only [optRun]
      by_cases hbrk : (optStep cfg starting iter st).2 = true
      · rw [if_pos hbrk]
        exact hstep
      · rw [if_neg hbrk]
        have hrest := ih (iter + 1) (optStep cfg starting iter st).1 hstep.2
        exact ⟨jGe_trans hrest.1 hstep.1, hrest.2⟩

theorem optStep_bestInv {T : Type} (cfg : Config T) (starting : PromptSet)
    (iter : Nat) (st : OptState)
    (hev : ∀ outs, jIsNaN (cfg.evaluator outs) = false)
    (h : BestInv st) : BestInv (optStep cfg starting iter st).1 := by
  have hs : jIsNaN (stepScore cfg starting st) = false := hev _
  constructor
  · intro tr htr
    rw [optStep_history_eq] at htr
    rw [optStep_best_eq]
    by_cases hgt : jGt (stepScore cfg starting st) st.best.score = true
    · rw [if_pos hgt]
      rcases List.mem_append.1 htr with hold | hnew
      · exact jGe_of_jGt_of_jGe hgt (h.1 tr hold)
      · have : tr.score = stepScore cfg starting st := by
          rcases List.mem_singleton.1 hnew with rfl
          rfl
        rw [this]
        exact jGe_refl_of_not_nan hs
    · rw [if_neg hgt]
      rcases List.mem_append.1 htr with hold | hnew
      · exact h.1 tr hold
      · have : tr.score = stepScore cfg starting st := by
          rcases List.mem_singleton.1 hnew with rfl
          rfl
        rw [this]
        exact jGe_of_not_jGt hs h.2 (Bool.eq_false_iff.2 hgt)
  · exact (optStep_best_mono cfg starting iter st h.2).2

theorem optRun_bestInv {T : Type} (cfg : Config T) (starting : PromptSet)
    (hev : ∀ outs, jIsNaN (cfg.evaluator outs) = false) :
    ∀ (fuel iter : Nat) (st : OptState), BestInv st →
      BestInv (optRun cfg starting iter fuel st) := by
  intro fuel
  induction fuel with
  | zero => intro iter st h; exact h
  | succ fuel ih =>
      intro iter st h
      simp only [optRun]
      by_cases hbrk : (optStep cfg starting iter st).2 = true
      · rw [if_pos hbrk]
        exact optStep_bestInv cfg starting iter st hev h
      · rw [if_neg hbrk]
        exact ih (iter + 1) _ (optStep_bestInv cfg starting iter st hev h)

theorem optStep_bestOrigin {T : Type} (cfg : Config T) (starting : PromptSet)
    (iter : Nat) (st : OptState) (b0 : Trial) (h : BestOrigin b0 st) :
    BestOrigin b0 (optStep cfg starting iter st).1 := by
  unfold BestOrigin
  rw [optStep_best_eq, optStep_history_eq]
  by_cases hgt : jGt (stepScore cfg starting st) st.best.score = true
  · rw [if_pos hgt]
    exact Or.inl (List.mem_append.2 (Or.inr (List.mem_singleton.2 rfl)))
  · rw [if_neg hgt]
    rcases h with hmem | hsent
    · exact Or.inl (List.mem_append.2 (Or.inl hmem))
    · exact Or.inr hsent

theorem optRun_bestOrigin {T : Type} (cfg : Config T) (starting : PromptSet)
    (b0 : Trial) :
    ∀ (fuel iter : Nat) (st : OptState), BestOrigin b0 st →
      BestOrigin b0 (optRun cfg starting iter fuel st) := by
  intro fuel
  induction fuel with
  | zero => intro iter st h; exact h
  | succ fuel ih =>
      intro iter st h
      simp only [optRun]
      by_cases hbrk : (optStep cfg starting iter st).2 = true
      · rw [if_pos hbrk]
        exact optStep_bestOrigin cfg starting iter st b0 h
      · rw [if_neg hbrk]
        exact ih (iter + 1) _ (optStep_bestOrigin cfg starting iter st b0 h)

theorem optRun_events_extend {T : Type} (cfg : Config T) (starting : PromptSet) :
    ∀ (fuel iter : Nat) (st : OptState),
      ∃ s, (optRun cfg starting iter fuel st).events = st.events ++ s := by
  intro fuel
  induction fuel with
  | zero => intro iter st; exact ⟨[], by simp [optRun]⟩
  | succ fuel ih =>
      intro iter st
      simp only [optRun]
      by_cases hbrk : (optStep cfg starting iter st).2 = true
      · rw [if_pos hbrk]
        refine ⟨[Event.propose (stepCtx cfg starting st)]
          ++ ((stepBatch cfg st).1.map Event.runItem)
          ++ [Event.evalBatch (stepBatch cfg st).1.length], ?_⟩
        simp only [optStep]
        simp [List.append_assoc]
      · rw [if_neg hbrk]
        obtain ⟨s, hs⟩ := ih (iter + 1) (optStep cfg starting iter st).1
        refine ⟨([Event.propose (stepCtx cfg starting st)]
          ++ ((stepBatch cfg st).1.map Event.runItem)
          ++ [Event.evalBatch (stepBatch cfg st).1.length]) ++ s, ?_⟩
        rw [hs]
        simp only [optStep]
        simp [List.append_assoc]

/-! Concrete counterexamples and witnesses are evaluated by reduction;
Batteries marks the rational operations `@[irreducible]`, which only blocks
elaborator-level unfolding, so restore the default reducibility for them. -/
attribute [local semireducible] Rat.mul Rat.add Rat.sub Rat.inv

/-! ### Claim theorems -/

/-- Claim C1 (supporting theorem for the return-value divergence): every run
passes exactly `Best.prompts` to the Outputter, where the final best is
either the highest-scoring recorded trial or the sentinel carrying the
normalized initial prompt set; the method itself, however, is declared
`Promise<void>` and returns no value. -/
theorem claim_C1_output_is_best {T : Type} (cfg : Config T) :
    (optimize cfg).outputted = (optimize cfg).final.best.prompts
    ∧ ((optimize cfg).final.best ∈ (optimize cfg).final.history
      ∨ ((optimize cfg).final.best.iteration = -1
        ∧ (optimize cfg).final.best.prompts = startingOf cfg
        ∧ (optimize cfg).final.best.score = JNum.ninf)) := by
  constructor
  · rfl
  · have h := optRun_bestOrigin cfg (startingOf cfg) (initState cfg).best
      cfg.maxIterations.toNat 0 (initState cfg) (Or.inr rfl)
    rcases h with hmem | hsent
    · exact Or.inl hmem
    · right
      have h1 : (optimize cfg).final.best = (initState cfg).best := hsent
      rw [h1]
      exact ⟨rfl, rfl, rfl⟩

/-- Claim C2, counterexample: with an Evaluator constantly returning
`+Infinity` (a non-finite value), iteration 0 appends its trial to History
and DOES update Best: the final best is that trial (iteration 0, score +∞),
not the untouched sentinel (iteration −1, score −∞) the claim requires. -/
theorem claim_C2_counterexample :
    (optimize cfgInfEval).final.history.length = 1
    ∧ ((optimize cfgInfEval).final.history.head?.map (fun tr => tr.score))
        = some JNum.inf
    ∧ (optimize cfgInfEval).final.best.score = JNum.inf
    ∧ (optimize cfgInfEval).final.best.iteration = 0 := by
  refine ⟨rfl, rfl, rfl, rfl⟩

/-- Claim C2 as amended: when the Evaluator returns `NaN` or `-Infinity`,
the iteration appends a trial carrying that exact score to History and does
not update Best; `+Infinity`, by contrast, strictly exceeds any lower best
score and does update Best (see the counterexample). -/
theorem claim_C2_nonfinite_guard {T : Type} (cfg : Config T)
    (starting : PromptSet) (iter : Nat) (st : OptState)
    (h : stepScore cfg starting st = JNum.nan
      ∨ stepScore cfg starting st = JNum.ninf) :
    (optStep cfg starting iter st).1.best = st.best
    ∧ (optStep cfg starting iter st).1.history =
        st.history ++ [({ iteration := (iter : Int),
                          prompts := stepCand cfg starting st,
                          score := stepScore cfg starting st } : Trial)] := by
  refine ⟨?_, optStep_history_eq cfg starting iter st⟩
  rw [optStep_best_eq]
  rcases h with hn | hn
  · rw [hn, jGt_nan_left]
    simp
  · rw [hn, jGt_ninf_left]
    simp

/-- Witness for the amended C2 at the NaN-returning configuration. -/
theorem claim_C2_witness :
    (optStep cfgNanEval (startingOf cfgNanEval) 0 (initState cfgNanEval)).1.best
      = (initState cfgNanEval).best
    ∧ (optStep cfgNanEval (startingOf cfgNanEval) 0 (initState cfgNanEval)).1.history =
        (initState cfgNanEval).history
          ++ [({ iteration := ((0 : Nat) : Int),
                 prompts := stepCand cfgNanEval (startingOf cfgNanEval) (initState cfgNanEval),
                 score := stepScore cfgNanEval (startingOf cfgNanEval) (initState cfgNanEval) } : Trial)] :=
  claim_C2_nonfinite_guard cfgNanEval (startingOf cfgNanEval) 0 (initState cfgNanEval)
    (Or.inl rfl)

/-- Claim C3, counterexample: with `batch_size = 0 < 1` no ConfigurationError
exists anywhere — the run completes and invokes the collaborators: the
trace has four events (DataLoader, Proposer, Evaluator, Outputter), starting
with the DataLoader, contradicting "run aborted before any collaborator
call". -/
theorem claim_C3_counterexample :
    (optimize cfgBadBatch).events.length = 4
    ∧ (optimize cfgBadBatch).events.head? = some Event.load := by
  constructor
  · decide
  · rfl

/-- Claim C3 as amended: the code performs no configuration validation at
all; for every configuration (declared stages empty or not, prompts missing
or not, any batch size, any iteration count) the run begins by invoking the
DataLoader collaborator — nothing is rejected at INIT. -/
theorem claim_C3_no_validation {T : Type} (cfg : Config T) :
    (optimize cfg).events.head? = some Event.load := by
  obtain ⟨s, hs⟩ := optRun_events_extend cfg (startingOf cfg)
    cfg.maxIterations.toNat 0 (initState cfg)
  show ((optRun cfg (startingOf cfg) 0 cfg.maxIterations.toNat (initState cfg)).events
    ++ [Event.output _]).head? = some Event.load
  rw [hs]
  simp [initState]

/-- Claim C7: (i) at termination the best score dominates every recorded
trial's score (whenever the Evaluator never returns NaN); (ii) from any
state whose best score is not NaN, running any number of iterations never
decreases the best score (so `Best.score` is non-decreasing over
iterations); (iii) an iteration whose score merely equals the incumbent
best score leaves Best unchanged — replacement requires strict
improvement. -/
theorem claim_C7_best_invariant {T : Type} (cfg : Config T)
    (hev : ∀ outs, jIsNaN (cfg.evaluator outs) = false) :
    ((optimize cfg).final.history.all
      (fun tr => jGe (optimize cfg).final.best.score tr.score)) = true
    ∧ (∀ (starting : PromptSet) (iter fuel : Nat) (st : OptState),
        jIsNaN st.best.score = false →
        jGe (optRun cfg starting iter fuel st).best.score st.best.score = true)
    ∧ (∀ (starting : PromptSet) (iter : Nat) (st : OptState),
        stepScore cfg starting st = st.best.score →
        (optStep cfg starting iter st).1.best = st.best) := by
  refine ⟨?_, ?_, ?_⟩
  · have h0 : BestInv (initState cfg) := by
      constructor
      · intro tr h
        simp [initState] at h
      · rfl
    have hinv : BestInv (optimize cfg).final :=
      optRun_bestInv cfg (startingOf cfg) hev cfg.maxIterations.toNat 0
        (initState cfg) h0
    rw [List.all_eq_true]
    intro tr htr
    exact hinv.1 tr htr
  · intro starting iter fuel st h
    exact (optRun_best_mono cfg starting fuel iter st h).1
  · intro starting iter st h
    rw [optStep_best_eq, h, jGt_irrefl]
    simp

/-- Witness for C7 at the constant-`1` Evaluator configuration. -/
theorem claim_C7_witness :
    ((optimize cfgOneEval).final.history.all
      (fun tr => jGe (optimize cfgOneEval).final.best.score tr.score)) = true
    ∧ jGe (optRun cfgOneEval (startingOf cfgOneEval) 0 1 (initState cfgOneEval)).best.score
        (initState cfgOneEval).best.score = true
    ∧ (optStep cfgOneEval (startingOf cfgOneEval) 0 stOneBest).1.best = stOneBest.best :=
  ⟨(claim_C7_best_invariant cfgOneEval (fun _ => rfl)).1,
   (claim_C7_best_invariant cfgOneEval (fun _ => rfl)).2.1
     (startingOf cfgOneEval) 0 1 (initState cfgOneEval) rfl,
   (claim_C7_best_invariant cfgOneEval (fun _ => rfl)).2.2
     (startingOf cfgOneEval) 0 stOneBest rfl⟩

/-- Claim C4, counterexample: in the two-stage run with seed 42, stage "a"
is selected at iteration 0 (Proposer sees 0 past attempts) and stage "b" is
selected for the FIRST time at iteration 1 — yet its ProposerContext
carries 1 past attempt, because `past_attempts` maps over every prior
trial, not just trials of that stage; so "past_attempts = [] on first
selection" fails for every stage not chosen at iteration 0. -/
theorem claim_C4_counterexample :
    (proposedCtxs (optimize cfgTwoStage)).map
      (fun c => (c.stageName, c.pastAttempts.length)) = [("a", 0), ("b", 1)] := by
  decide

/-- Claim C4 as amended: the `past_attempts` handed to the Proposer contains
exactly one `{prompt, score}` entry per prior trial — every trial in
History, whichever stage it mutated — in oldest-first (History) order,
pairing each trial's prompt at the selected stage with that trial's score;
it is empty exactly when History is empty, i.e. only at iteration 0. -/
theorem claim_C4_past_attempts {T : Type} (cfg : Config T)
    (starting : PromptSet) (st : OptState) (k : Nat) :
    (stepCtx cfg starting st).pastAttempts.length = st.history.length
    ∧ (stepCtx cfg starting st).pastAttempts[k]? =
        (st.history[k]?).map (fun h => (h.prompts (stepStage cfg st), h.score))
    ∧ ((stepCtx cfg starting st).pastAttempts = [] ↔ st.history = []) := by
  refine ⟨?_, ?_, ?_⟩
  · simp [stepCtx]
  · simp [stepCtx]
  · simp [stepCtx]

/-- Claim C9: two runs whose configurations agree on the seed, the dataset,
and every (deterministic) collaborator and option produce identical
Histories. -/
theorem claim_C9_determinism {T : Type} (c1 c2 : Config T)
    (h1 : c1.stages = c2.stages) (h2 : c1.runner = c2.runner)
    (h3 : c1.data = c2.data) (h4 : c1.proposer = c2.proposer)
    (h5 : c1.evaluator = c2.evaluator)
    (h6 : c1.initialPrompts = c2.initialPrompts)
    (h7 : c1.maxIterations = c2.maxIterations)
    (h8 : c1.batchSize = c2.batchSize) (h9 : c1.seed = c2.seed)
    (h10 : c1.earlyStopThreshold = c2.earlyStopThreshold)
    (h11 : c1.stringify = c2.stringify) (h12 : c1.mathExp = c2.mathExp)
    (h13 : c1.mathSqrt = c2.mathSqrt) (h14 : c1.mathPowNeg = c2.mathPowNeg) :
    (optimize c1).final.history = (optimize c2).final.history := by
  have hc : c1 = c2 := by
    cases c1
    cases c2
    simp_all
  rw [hc]

/-- Witness for C9: the same configuration run twice. -/
theorem claim_C9_witness :
    (optimize cfgOneEval).final.history = (optimize cfgOneEval).final.history :=
  claim_C9_determinism cfgOneEval cfgOneEval rfl rfl rfl rfl rfl rfl rfl rfl
    rfl rfl rfl rfl rfl rfl

/-- Claim C10: constructing the optimizer overwrites the process-global
`Math.random` slot with a Mulberry32 closure seeded solely from the
instance's seed — whatever generator was installed before (`g`, `g'`) is
discarded; a second construction re-seeds the same shared slot; and the
run's own PRNG state is exactly that seeded global state, not a
per-instance generator. -/
theorem claim_C10_global_prng (g g' : Option Nat) (s1 s2 : Nat)
    {T : Type} (cfg : Config T) :
    constructRandom s1 g = some (seedRandomState s1)
    ∧ constructRandom s2 (constructRandom s1 g) = some (seedRandomState s2)
    ∧ constructRandom s1 g = constructRandom s1 g'
    ∧ (initState cfg).rng = seedRandomState cfg.seed :=
  ⟨rfl, rfl, rfl, rfl⟩

/-! ### Weighted-selection lemmas (for claim C5) -/

theorem foldl_jAdd_map_fin (qs : List ℚ) :
    ∀ a : ℚ, (qs.map JNum.fin).foldl jAdd (.fin a) = .fin (a + qs.sum) := by
  induction qs with
  | nil => intro a; simp [jAdd]
  | cons q qs ih =>
      intro a
      simp only [List.map_cons, List.foldl_cons, jAdd, List.sum_cons]
      rw [ih (a + q)]
      ring_nf

theorem pickByWeight_nan (ss : List String) :
    ∀ (us : List JNum) (acc : JNum), pickByWeight ss us acc .nan = none := by
  induction ss with
  | nil => intro us acc; cases us <;> rfl
  | cons s ss ih =>
      intro us acc
      cases us with
      | nil => rfl
      | cons u us =>
          simp only [pickByWeight, jLe, jGe_nan_right]
          exact ih us _

theorem pickByWeight_eq_pickIdxQ (ss : List String) :
    ∀ (qs : List ℚ) (a r : ℚ), ss.length = qs.length →
      pickByWeight ss (qs.map JNum.fin) (.fin a) (.fin r) =
        (pickIdxQ qs a r).map (fun i => ss.getD i "") := by
  induction ss with
  | nil =>
      intro qs a r hlen
      have : qs = [] := List.eq_nil_of_length_eq_zero hlen.symm
      subst this
      rfl
  | cons s ss ih =>
      intro qs a r hlen
      cases qs with
      | nil => simp at hlen
      | cons q qs =>
          simp only [List.map_cons, pickByWeight, pickIdxQ, jAdd, jLe, jGe]
          by_cases h : r ≤ a + q
          · rw [if_pos (by simpa using h), if_pos h]
            rfl
          · rw [if_neg (by simpa using h), if_neg h]
            rw [ih qs (a + q) r (by simpa using hlen)]
            cases hpi : pickIdxQ qs (a + q) r <;> simp

theorem pickIdxQ_of_interval :
    ∀ (qs : List ℚ) (a r : ℚ) (i : Nat), (∀ q ∈ qs, 0 ≤ q) →
      i < qs.length → r ≤ a + (qs.take (i + 1)).sum →
      (i = 0 ∨ a + (qs.take i).sum < r) →
      pickIdxQ qs a r = some i := by
  intro qs
  induction qs with
  | nil => intro a r i hn hi; simp at hi
  | cons q qs ih =>
      intro a r i hn hi hup hlo
      cases i with
      | zero =>
          have h1 : r ≤ a + q := by simpa using hup
          simp only [pickIdxQ, if_pos h1]
      | succ j =>
          have hlo2 : a + ((q :: qs).take (j + 1)).sum < r := by
            rcases hlo with h0 | h
            · simp at h0
            · exact h
          have hneg : ¬ r ≤ a + q := by
            have hsum : 0 ≤ (qs.take j).sum :=
              List.sum_nonneg (fun x hx => hn x (List.mem_cons_of_mem q (List.mem_of_mem_take hx)))
            simp only [List.take_succ_cons, List.sum_cons] at hlo2
            push_neg
            linarith
          simp only [pickIdxQ, if_neg hneg]
          rw [ih (a + q) r j (fun x hx => hn x (List.mem_cons_of_mem q hx))
            (by simpa using hi)
            (by simpa [add_assoc] using hup)
            ?_]
          · rfl
          · rcases Nat.eq_zero_or_pos j with hj | hj
            · exact Or.inl hj
            · refine Or.inr ?_
              simp only [List.take_succ_cons, List.sum_cons] at hlo2
              rcases hlo with h0 | h
              · simp at h0
              · simp only [List.take_succ_cons, List.sum_cons] at h
                linarith

theorem weightedSelect_fin_eq (ss : List String) (qs : List ℚ) (t : Nat)
    (hlen : ss.length = qs.length) :
    weightedSelect ss (qs.map .fin) t =
      (match pickIdxQ qs 0 ((randQ t).1 * (0 + qs.sum)) with
        | some i => (ss.getD i "", (randQ t).2)
        | none => (ss.getD (floorIdx (randQ (randQ t).2).1 ss.length) "",
            (randQ (randQ t).2).2)) := by
  simp only [weightedSelect, foldl_jAdd_map_fin qs 0]
  have hmul : jMul (.fin (randQ t).1) (.fin (0 + qs.sum))
      = .fin ((randQ t).1 * (0 + qs.sum)) := rfl
  rw [hmul, pickByWeight_eq_pickIdxQ ss qs 0 _ hlen]
  cases pickIdxQ qs 0 ((randQ t).1 * (0 + qs.sum)) <;> simp

/-- Claim C5, counterexample: with both surrogate utilities equal to `0`
(so their sum is `0`, one of the cases the claim routes to the uniform
fallback), the draw is `r = random * 0 = 0 <= 0 = acc` at index 0, so the
cumulative scan deterministically returns the FIRST stage: at PRNG state 1
the selector yields "a" even though a uniform pick at the very same draw
would yield "b" — the fallback branch is never reached and stage "b" is
unreachable. -/
theorem claim_C5_counterexample :
    ([JNum.fin 0, JNum.fin 0].foldl jAdd (.fin 0) = JNum.fin 0)
    ∧ (weightedSelect ["a", "b"] [.fin 0, .fin 0] 1).1 = "a"
    ∧ ["a", "b"].getD (floorIdx (randQ 1).1 2) "" = "b" := by
  refine ⟨by decide, by decide, by decide⟩

/-- Claim C5 as amended: once every stage has executed, `selectStage` uses
the surrogate-utility weighted scan (conjunct 4).  For finite nonnegative
utilities the scan picks exactly the stage whose cumulative-utility
interval contains the draw `random * total` — selection proportional to
`u_i` (conjunct 1).  When the total is NaN every comparison fails and the
selector falls back to the uniform random pick (conjunct 2); but when the
total is 0 the first stage is returned deterministically instead of the
claimed uniform fallback (conjunct 3; see the counterexample). -/
theorem claim_C5_weighted_selection :
    (∀ (ss : List String) (qs : List ℚ) (t : Nat) (i : Nat),
      ss.length = qs.length → (∀ q ∈ qs, 0 ≤ q) → i < qs.length →
      (randQ t).1 * qs.sum ≤ (qs.take (i + 1)).sum →
      (i = 0 ∨ (qs.take i).sum < (randQ t).1 * qs.sum) →
      (weightedSelect ss (qs.map .fin) t).1 = ss.getD i "")
    ∧ (∀ (ss : List String) (us : List JNum) (t : Nat),
        us.foldl jAdd (.fin 0) = JNum.nan →
        weightedSelect ss us t =
          (ss.getD (floorIdx (randQ (randQ t).2).1 ss.length) "",
            (randQ (randQ t).2).2))
    ∧ (∀ (s : String) (ss : List String) (t : Nat),
        weightedSelect (s :: ss) (List.replicate (s :: ss).length (.fin 0)) t
          = (s, (randQ t).2))
    ∧ (∀ (T : Type) (cfg : Config T) (st : OptState),
        cfg.stages.filter (fun s => !st.executed.contains s) = [] →
        selectStage cfg st =
          weightedSelect cfg.stages (stageUtils cfg st).1 (stageUtils cfg st).2) := by
  refine ⟨?_, ?_, ?_, ?_⟩
  · intro ss qs t i hlen hn hi hup hlo
    have hidx : pickIdxQ qs 0 ((randQ t).1 * (0 + qs.sum)) = some i := by
      refine pickIdxQ_of_interval qs 0 ((randQ t).1 * (0 + qs.sum)) i hn hi ?_ ?_
      · simpa using hup
      · rcases hlo with h0 | h
        · exact Or.inl h0
        · exact Or.inr (by simpa using h)
    rw [weightedSelect_fin_eq ss qs t hlen, hidx]
  · intro ss us t htot
    simp only [weightedSelect, htot]
    have hmul : jMul (.fin (randQ t).1) JNum.nan = JNum.nan := rfl
    rw [hmul, pickByWeight_nan]
  · intro s ss t
    have hq : List.replicate (s :: ss).length (JNum.fin 0)
        = (List.replicate (s :: ss).length (0 : ℚ)).map .fin := by
      simp
    rw [hq, weightedSelect_fin_eq _ _ t (by simp)]
    have hcons : List.replicate (s :: ss).length (0 : ℚ)
        = 0 :: List.replicate ss.length (0 : ℚ) := by
      simp [List.replicate_succ]
    have hr : pickIdxQ (List.replicate (s :: ss).length (0 : ℚ)) 0
        ((randQ t).1 * (0 + (List.replicate (s :: ss).length (0 : ℚ)).sum))
        = some 0 := by
      rw [hcons]
      simp [pickIdxQ]
    rw [hr]
    rfl
  · intro T cfg st h
    simp only [selectStage]
    rw [h]
    simp

/-- Witness for the amended C5: a proportional pick at utilities `[1, 1]`
(the draw at state 1 lands in stage index 1's interval), the NaN-total
uniform fallback, the zero-utilities first-stage pick, and the
exploitation-phase dispatch of `selectStage`. -/
theorem claim_C5_witness :
    (weightedSelect ["a", "b"] ([1, 1].map JNum.fin) 1).1 = ["a", "b"].getD 1 ""
    ∧ weightedSelect ["a"] [JNum.nan] 5 =
        (["a"].getD (floorIdx (randQ (randQ 5).2).1 ["a"].length) "",
          (randQ (randQ 5).2).2)
    ∧ weightedSelect ["a"] (List.replicate (["a"] : List String).length (.fin 0)) 0
        = ("a", (randQ 0).2)
    ∧ selectStage cfgOneEval stAllExec =
        weightedSelect cfgOneEval.stages (stageUtils cfgOneEval stAllExec).1
          (stageUtils cfgOneEval stAllExec).2 :=
  ⟨claim_C5_weighted_selection.1 ["a", "b"] [1, 1] 1 1 rfl (by decide) (by decide)
      (by decide) (Or.inr (by decide)),
    claim_C5_weighted_selection.2.1 ["a"] [JNum.nan] 5 (by decide),
    claim_C5_weighted_selection.2.2.1 "a" [] 0,
    claim_C5_weighted_selection.2.2.2 Unit cfgOneEval stAllExec (by decide)⟩
